import Mathlib

/-!
Verification of the istanbul BFT core message-dispatch layer of
celo-blockchain against its specification.

The namespace `IstCore` is a shallow embedding of
`src/consensus/istanbul/core/handler.go`: the functions `handleMsg` and
`handleTimeoutAndMoveToNextRound` are translated line by line.  Sequences and
rounds are Go `big.Int` values, embedded as `Int`; addresses and hashes are
embedded as `Nat`.  The backend (`ParentBlockValidators`, `AuthorForBlock`,
`HasBlock`, `LastSubject`) and the proposer-selection policy are external
collaborators of the handler, embedded as an explicit `Backend` record of
opaque data.  `handleMsg` returns its classification outcome (the Go error
value, the panic, or the phase handler it dispatches to) together with the
new backlog contents; the backlog store is the only state mutation performed
by `handleMsg` itself, so the backlog is threaded explicitly.

The namespace `Wire` models the deterministic wire encoding of the
Round-Change Certificate, and `quorumSize` models the validator-set quorum
function; both are modelled from the spec because their implementations are
not among the sources.
-/

namespace IstCore

/-- Embeds `big.Int.Cmp`: negative, zero or positive according to the order
of the two operands. -/
def intCmp (a b : Int) : Int :=
  if a < b then -1 else if a = b then 0 else 1

/-- Embeds `istanbul.View`: a (round, sequence) pair of `big.Int` counters,
field order as in the Go struct. -/
structure View where
  round : Int
  sequence : Int
deriving DecidableEq, Repr

/-- Embeds `View.Cmp`: lexicographic comparison, sequence first, then
round. -/
def View.cmp (v y : View) : Int :=
  if intCmp v.sequence y.sequence ≠ 0 then intCmp v.sequence y.sequence
  else if intCmp v.round y.round ≠ 0 then intCmp v.round y.round
  else 0

/-- A message view as carried on the wire: any of the pointer fields of the
Go struct may be nil, embedded as `Option`. -/
structure RawView where
  sequence : Option Int
  round : Option Int
deriving DecidableEq, Repr

/-- Embeds `istanbul.Subject`: a view plus a proposal digest. -/
structure Subject where
  view : View
  digest : Nat
deriving DecidableEq, Repr

/-- Embeds the proposal data `handleMsg` reads: `Number()` (a `big.Int`)
and `Hash()`. -/
structure Proposal where
  number : Int
  hash : Nat
deriving DecidableEq, Repr

/-- Embeds `istanbul.MsgPreprepare`. -/
def MsgPreprepare : Nat := 0

/-- Embeds `istanbul.MsgPrepare`. -/
def MsgPrepare : Nat := 1

/-- Embeds `istanbul.MsgCommit`. -/
def MsgCommit : Nat := 2

/-- Embeds `istanbul.MsgRoundChange`. -/
def MsgRoundChange : Nat := 3

/-- Embeds the decoded `istanbul.Message` as read by `handleMsg`: code,
sender address, the view returned by `msg.View()` (nil view or nil view
fields embedded as `none`), and the proposal carried when the code is
PRE-PREPARE.  For a PRE-PREPARE the Go accessor `msg.Preprepare().View`
and for a COMMIT the accessor `msg.Commit().Subject.View` are the same
object that `msg.View()` returns, so the handler model reads `view` for
both. -/
structure Message where
  code : Nat
  address : Nat
  view : Option RawView
  proposal : Proposal
deriving DecidableEq, Repr

/-- Embeds `core.State`: the engine phase constants of the round state. -/
inductive EngineState where
  | stateAcceptRequest
  | statePreprepared
  | statePrepared
  | stateCommitted
  | stateWaitingForNewRound
deriving DecidableEq, Repr

/-- The round-state fields `handleMsg` reads: `Sequence()`, `Round()`,
`DesiredRound()`, `State()` and `ValidatorSet()` (the latter embedded as
its list of validator addresses). -/
structure RoundState where
  sequence : Int
  round : Int
  desiredRound : Int
  state : EngineState
  valSet : List Nat
deriving DecidableEq, Repr

/-- The backend collaborator and proposer-selection policy consumed by
`handleMsg`, embedded as opaque data: `ParentBlockValidators`,
`AuthorForBlock`, `HasBlock`, `LastSubject` (`none` embeds the error
return) and `c.selectProposer`. -/
structure Backend where
  parentBlockValidators : Proposal → List Nat
  authorForBlock : Nat → Nat
  hasBlock : Nat → Int → Bool
  lastSubject : Option Subject
  selectProposer : List Nat → Nat → Nat → Nat

/-- The engine fields of `core` that `handleMsg` touches: the current round
state, the backlog contents and the own address. -/
structure CoreState where
  current : RoundState
  backlog : List Message
  address : Nat
deriving Repr

/-- Embeds `big.Int.Uint64()`: the low 64 bits of the absolute value. -/
def toUint64 (i : Int) : Nat := i.natAbs % 2 ^ 64

/-- The outcome of `handleMsg`: the Go error value returned (or nil for the
suppressed old PRE-PREPARE), the panic, or the handler the message is
dispatched to. -/
inductive HandleMsgResult where
  | decodeFailed
  | errUnauthorizedAddress
  | errInvalidMessage
  | errOldMessage
  | errFutureMessage
  | lastSubjectErr
  | nilOldPreprepareSuppressed
  | toHandleCheckedCommitForPreviousSequence
  | panicCurrentDesiredRoundMismatch
  | toHandlePreprepare
  | toHandlePrepare
  | toHandleCommit
  | toHandleRoundChange
deriving DecidableEq, Repr

/-- Embeds the Go comment pattern `Store in backlog (if it is not from
self)` used at all three future-message sites of `handleMsg`. -/
def storeUnlessSelf (c : CoreState) (msg : Message) : List Message :=
  if msg.address ≠ c.address then c.backlog ++ [msg] else c.backlog

/-- Embeds the prior-view branch of `core.handleMsg` (the body of
`if v.Cmp(desiredView) < 0`): an old PRE-PREPARE from the correct proposer
for a block the backend already has returns nil, an old COMMIT whose
subject view equals the last finalized subject view at a non-genesis
sequence goes to `handleCheckedCommitForPreviousSequence`, and every other
old message returns `errOldMessage`.  `vs` and `vr` are the already
extracted sequence and round of the message view. -/
def handleOldMsg (env : Backend) (c : CoreState) (msg : Message)
    (vs vr : Int) : HandleMsgResult × List Message :=
  if msg.code = MsgPreprepare then
    if env.selectProposer (env.parentBlockValidators msg.proposal)
          (env.authorForBlock
            ((toUint64 msg.proposal.number + (2 ^ 64 - 1)) % 2 ^ 64))
          (toUint64 vr) = msg.address ∧
        env.hasBlock msg.proposal.hash msg.proposal.number then
      (.nilOldPreprepareSuppressed, c.backlog)
    else (.errOldMessage, c.backlog)
  else if msg.code = MsgCommit then
    match env.lastSubject with
    | none => (.lastSubjectErr, c.backlog)
    | some lastSubject =>
      if View.cmp { round := vr, sequence := vs } lastSubject.view ≠ 0 then
        (.errOldMessage, c.backlog)
      else if intCmp lastSubject.view.sequence 0 = 0 then
        (.errOldMessage, c.backlog)
      else (.toHandleCheckedCommitForPreviousSequence, c.backlog)
  else (.errOldMessage, c.backlog)

/-- Embeds the final dispatch switch of `core.handleMsg`: route the message
to the phase handler named by its code. -/
def dispatchByCode (c : CoreState) (msg : Message) :
    HandleMsgResult × List Message :=
  if msg.code = MsgPreprepare then (.toHandlePreprepare, c.backlog)
  else if msg.code = MsgPrepare then (.toHandlePrepare, c.backlog)
  else if msg.code = MsgCommit then (.toHandleCommit, c.backlog)
  else if msg.code = MsgRoundChange then (.toHandleRoundChange, c.backlog)
  else (.errInvalidMessage, c.backlog)

/-- Embeds the view-classification core of `core.handleMsg`, after the view
fields have been extracted as `vs` (sequence) and `vr` (round): the
prior-view branch, the future-sequence branch, the round-invariant panic,
the not-yet-accepted-proposal and higher-round future classifications, and
the final dispatch. -/
def classifyByView (env : Backend) (c : CoreState) (msg : Message)
    (vs vr : Int) : HandleMsgResult × List Message :=
  if View.cmp { round := vr, sequence := vs }
      { round := c.current.desiredRound, sequence := c.current.sequence } < 0 then
    handleOldMsg env c msg vs vr
  else if intCmp vs c.current.sequence > 0 then
    (.errFutureMessage, storeUnlessSelf c msg)
  else if intCmp c.current.round c.current.desiredRound > 0 then
    (.panicCurrentDesiredRoundMismatch, c.backlog)
  else if (c.current.state = .stateWaitingForNewRound ∨
        c.current.state = .stateAcceptRequest) ∧
      (msg.code = MsgCommit ∨ msg.code = MsgPrepare) then
    (.errFutureMessage, storeUnlessSelf c msg)
  else if msg.code ≠ MsgRoundChange ∧ intCmp vr c.current.desiredRound > 0 then
    (.errFutureMessage, storeUnlessSelf c msg)
  else dispatchByCode c msg

/-- Embeds `core.handleMsg` (src/consensus/istanbul/core/handler.go):
decode and signature check (a failed `FromPayload` is embedded as a `none`
payload), validator-set membership, view extraction, then the view
classification of `classifyByView`.  Returns the outcome together with the
new backlog contents. -/
def handleMsg (env : Backend) (c : CoreState) (payload : Option Message) :
    HandleMsgResult × List Message :=
  match payload with
  | none => (.decodeFailed, c.backlog)
  | some msg =>
    if ¬ msg.address ∈ c.current.valSet then (.errUnauthorizedAddress, c.backlog)
    else
      match msg.view with
      | none => (.errInvalidMessage, c.backlog)
      | some rv =>
        match rv.sequence, rv.round with
        | some vs, some vr => classifyByView env c msg vs vr
        | _, _ => (.errInvalidMessage, c.backlog)

/-- The outcome of `handleTimeoutAndMoveToNextRound`: either the guard fires
and nothing happens (nil return, state unchanged), or the engine calls
`waitForDesiredRound` with the next round. -/
inductive TimeoutResult where
  | unchanged
  | waitForDesiredRound (round : Int)
deriving DecidableEq, Repr

/-- Embeds `core.handleTimeoutAndMoveToNextRound`: if the current sequence
or the desired round no longer matches the timed-out view, return nil
without touching the state; otherwise move to wait for the next round. -/
def handleTimeoutAndMoveToNextRound (c : CoreState) (timedOutView : View) :
    TimeoutResult :=
  if intCmp c.current.sequence timedOutView.sequence ≠ 0 ∨
      intCmp c.current.desiredRound timedOutView.round ≠ 0 then
    .unchanged
  else
    .waitForDesiredRound (timedOutView.round + 1)

/-- The total view of a message, when all its view fields are present. -/
def msgViewTot (m : Message) : Option View :=
  match m.view with
  | some rv =>
    match rv.sequence, rv.round with
    | some s, some r => some { round := r, sequence := s }
    | _, _ => none
  | none => none

/-- Modelled from the spec: the Backlog contract (section 4.5) replays, on
updateState, the buffered messages whose view has become current, that is
whose view no longer exceeds the view the engine advanced to; the backlog
implementation itself is not among the sources. -/
def backlogReplayable (v : View) (backlog : List Message) : List Message :=
  backlog.filter fun m =>
    match msgViewTot m with
    | some mv => decide (View.cmp mv v ≤ 0)
    | none => false

/-- Claim C9.  Modelled from the spec: the quorum size of a validator set of
size n is the ceiling of 2n/3 (spec sections 3 and 4.1); the validator-set
implementation itself is not among the sources. -/
def quorumSize (n : Nat) : Nat := (2 * n + 2) / 3

end IstCore

namespace Wire

/-!
Modelled from the spec: the deterministic wire encoding of the Round-Change
Certificate (spec section 6, and the round-trip law exercised by
src/consensus/istanbul/types_v2_test.go).  The production encoder (the rlp
package and the struct definitions of types_v2.go) is not among the
sources, so it is modelled from the spec words: structures are encoded as
ordered field sequences under the recursive length-prefixed encoding, with
uints as minimal big-endian byte strings, and absent optional fields
encoded as the canonical empty form.  Bytes are embedded as Nat values
below 256; a nil-able Go slice is embedded as an Option of a list, none
standing for the Go nil slice, which encodes exactly as the empty slice
and decodes back as the canonical empty slice.
-/

/-- Minimal big-endian byte string of a natural number; zero encodes as the
empty string, as the wire encoding of uints demands. -/
def natBytes (n : Nat) : List Nat :=
  if h : n = 0 then [] else natBytes (n / 256) ++ [n % 256]
decreasing_by exact Nat.div_lt_self (Nat.pos_of_ne_zero h) (by omega)

/-- Big-endian value of a byte string. -/
def beVal (bs : List Nat) : Nat := bs.foldl (fun a b => a * 256 + b) 0

/-- Fixed-width big-endian byte string: k bytes carrying the low bytes of
n, for the fixed-size address and hash fields. -/
def natBytesFix : Nat → Nat → List Nat
  | 0, _ => []
  | k + 1, n => natBytesFix k (n / 256) ++ [n % 256]

/-- A wire item: a byte string or a list of items. -/
inductive Item where
  | str (bs : List Nat)
  | list (items : List Item)

/-- Length prefix of the wire encoding: offset 128 for byte strings, 192
for lists; the short form is used below 56, otherwise the length is itself
carried as a big-endian byte string after a length-of-length byte. -/
def encLen (offset len : Nat) : List Nat :=
  if len < 56 then [offset + len]
  else (offset + 55 + (natBytes len).length) :: natBytes len

/-- Encoding of a byte string: a single byte below 128 is its own encoding,
otherwise the length prefix precedes the content. -/
def encodeBytes : List Nat → List Nat
  | [b] => if b < 128 then [b] else [129, b]
  | bs => encLen 128 bs.length ++ bs

mutual

/-- Encoding of a wire item. -/
def encodeItem : Item → List Nat
  | .str bs => encodeBytes bs
  | .list its => encLen 192 (encodeItems its).length ++ encodeItems its

/-- Concatenated encodings of a sequence of items: a list payload. -/
def encodeItems : List Item → List Nat
  | [] => []
  | it :: its => encodeItem it ++ encodeItems its

end

mutual

/-- Decoder for one item at the head of a byte string, returning the item
and the unconsumed tail; the fuel argument bounds the recursion depth. -/
def decodeItemF : Nat → List Nat → Option (Item × List Nat)
  | _, [] => none
  | 0, _ :: _ => none
  | fuel + 1, b :: rest =>
    if b < 128 then some (.str [b], rest)
    else if b < 184 then
      if rest.length < b - 128 then none
      else some (.str (rest.take (b - 128)), rest.drop (b - 128))
    else if b < 192 then
      if rest.length < b - 183 then none
      else
        if (rest.drop (b - 183)).length < beVal (rest.take (b - 183)) then none
        else
          some (.str ((rest.drop (b - 183)).take (beVal (rest.take (b - 183)))),
            (rest.drop (b - 183)).drop (beVal (rest.take (b - 183))))
    else if b < 248 then
      if rest.length < b - 192 then none
      else
        match decodeItemsF fuel (rest.take (b - 192)) with
        | some its => some (.list its, rest.drop (b - 192))
        | none => none
    else
      if rest.length < b - 247 then none
      else
        if (rest.drop (b - 247)).length < beVal (rest.take (b - 247)) then none
        else
          match decodeItemsF fuel
              ((rest.drop (b - 247)).take (beVal (rest.take (b - 247)))) with
          | some its =>
            some (.list its,
              (rest.drop (b - 247)).drop (beVal (rest.take (b - 247))))
          | none => none

/-- Decoder for a sequence of items exactly filling a byte string. -/
def decodeItemsF : Nat → List Nat → Option (List Item)
  | _, [] => some []
  | 0, _ :: _ => none
  | fuel + 1, b :: rest =>
    match decodeItemF fuel (b :: rest) with
    | some (it, rest2) =>
      match decodeItemsF fuel rest2 with
      | some its => some (it :: its)
      | none => none
    | none => none

end

mutual

/-- Cost measure bounding the decoding fuel an item needs. -/
def itemCost : Item → Nat
  | .str _ => 1
  | .list its => 1 + itemsCost its

/-- Cost measure bounding the decoding fuel a sequence of items needs. -/
def itemsCost : List Item → Nat
  | [] => 0
  | it :: its => 1 + itemCost it + itemsCost its

end

mutual

/-- The sizes a wire item must respect to be representable in the Go
implementation: every string length and every list payload length fits a
uint64, as the length-of-length form of the encoding demands. -/
def boundedItem : Item → Bool
  | .str bs => decide (bs.length < 2 ^ 64)
  | .list its =>
    decide ((encodeItems its).length < 2 ^ 64) && boundedItems its

/-- Sequence version of boundedItem. -/
def boundedItems : List Item → Bool
  | [] => true
  | it :: its => boundedItem it && boundedItems its

end

/-- Top-level decoder: parse one item consuming the whole input, with fuel
ample for any input of that size. -/
def rlpDecode (bs : List Nat) : Option Item :=
  match decodeItemF (3 * bs.length + 1) bs with
  | some (it, []) => some it
  | _ => none

/-- Embeds `istanbul.View` on the wire: the (Round, Sequence) pair of
non-negative big.Int counters, in the field order of the Go struct. -/
structure View where
  round : Nat
  sequence : Nat
deriving DecidableEq, Repr

/-- Embeds the transport message envelope of spec section 6:
code, 20-byte address, message bytes and signature bytes, the two byte
slices being nil-able. -/
structure Message where
  code : Nat
  address : Fin (2 ^ 160)
  msg : Option (List Nat)
  signature : Option (List Nat)
deriving DecidableEq, Repr

/-- Embeds `istanbul.PreparedCertificateV2` as exercised by the round-trip
test: a nil-able list of prepare-or-commit messages and a proposal hash. -/
structure PreparedCertificateV2 where
  prepareOrCommitMessages : Option (List Message)
  proposalHash : Fin (2 ^ 256)
deriving DecidableEq, Repr

/-- Embeds `istanbul.RoundChangeRequest`: address, view, carried prepared
certificate, nil-able signature. -/
structure RoundChangeRequest where
  address : Fin (2 ^ 160)
  view : View
  preparedCertificateV2 : PreparedCertificateV2
  signature : Option (List Nat)
deriving DecidableEq, Repr

/-- Embeds `istanbul.RoundChangeCertificateV2`: a nil-able list of
round-change requests. -/
structure RoundChangeCertificateV2 where
  requests : Option (List RoundChangeRequest)
deriving DecidableEq, Repr

/-- Wire item of a uint field: its minimal big-endian byte string. -/
def encNat (n : Nat) : Item := .str (natBytes n)

/-- Wire item of a 20-byte address field. -/
def encAddress (a : Fin (2 ^ 160)) : Item := .str (natBytesFix 20 a.val)

/-- Wire item of a 32-byte hash field. -/
def encHash (h : Fin (2 ^ 256)) : Item := .str (natBytesFix 32 h.val)

/-- Wire item of a nil-able byte slice: nil encodes as the canonical empty
string. -/
def encBytesField (b : Option (List Nat)) : Item := .str (b.getD [])

/-- Wire item of a view: the ordered field sequence (round, sequence). -/
def View.toItem (v : View) : Item :=
  .list [encNat v.round, encNat v.sequence]

/-- Wire item of a message envelope: the ordered field sequence
(code, address, msg, signature). -/
def Message.toItem (m : Message) : Item :=
  .list [encNat m.code, encAddress m.address, encBytesField m.msg,
    encBytesField m.signature]

/-- Wire item of a prepared certificate: the message list (nil encoding as
the canonical empty list) and the proposal hash. -/
def PreparedCertificateV2.toItem (pc : PreparedCertificateV2) : Item :=
  .list [.list ((pc.prepareOrCommitMessages.getD []).map Message.toItem),
    encHash pc.proposalHash]

/-- Wire item of a round-change request: the ordered field sequence
(address, view, prepared certificate, signature). -/
def RoundChangeRequest.toItem (r : RoundChangeRequest) : Item :=
  .list [encAddress r.address, r.view.toItem, r.preparedCertificateV2.toItem,
    encBytesField r.signature]

/-- Wire item of a round-change certificate: its request list (nil encoding
as the canonical empty list). -/
def RoundChangeCertificateV2.toItem (c : RoundChangeCertificateV2) : Item :=
  .list [.list ((c.requests.getD []).map RoundChangeRequest.toItem)]

/-- Decoded uint field. -/
def decNat : Item → Option Nat
  | .str bs => some (beVal bs)
  | .list _ => none

/-- Decoded 20-byte address field. -/
def decAddress : Item → Option (Fin (2 ^ 160))
  | .str bs =>
    if bs.length = 20 then
      some ⟨beVal bs % 2 ^ 160, Nat.mod_lt _ (by positivity)⟩
    else none
  | .list _ => none

/-- Decoded 32-byte hash field. -/
def decHash : Item → Option (Fin (2 ^ 256))
  | .str bs =>
    if bs.length = 32 then
      some ⟨beVal bs % 2 ^ 256, Nat.mod_lt _ (by positivity)⟩
    else none
  | .list _ => none

/-- Decoded byte-slice field: always the present, canonical form. -/
def decBytesField : Item → Option (List Nat)
  | .str bs => some bs
  | .list _ => none

/-- Decoded view. -/
def View.ofItem : Item → Option View
  | .list [r, s] =>
    match decNat r, decNat s with
    | some rr, some ss => some { round := rr, sequence := ss }
    | _, _ => none
  | _ => none

/-- Decoded message envelope; the nil-able slices come back canonical. -/
def Message.ofItem : Item → Option Message
  | .list [c, a, m, s] =>
    match decNat c, decAddress a, decBytesField m, decBytesField s with
    | some cc, some aa, some mm, some ss =>
      some { code := cc, address := aa, msg := some mm, signature := some ss }
    | _, _, _, _ => none
  | _ => none

/-- Decoded prepared certificate. -/
def PreparedCertificateV2.ofItem : Item → Option PreparedCertificateV2
  | .list [.list ms, h] =>
    match ms.mapM Message.ofItem, decHash h with
    | some msgs, some hh =>
      some { prepareOrCommitMessages := some msgs, proposalHash := hh }
    | _, _ => none
  | _ => none

/-- Decoded round-change request. -/
def RoundChangeRequest.ofItem : Item → Option RoundChangeRequest
  | .list [a, v, pc, s] =>
    match decAddress a, View.ofItem v, PreparedCertificateV2.ofItem pc,
        decBytesField s with
    | some aa, some vv, some pp, some ss =>
      some { address := aa, view := vv, preparedCertificateV2 := pp,
             signature := some ss }
    | _, _, _, _ => none
  | _ => none

/-- Decoded round-change certificate. -/
def RoundChangeCertificateV2.ofItem : Item → Option RoundChangeCertificateV2
  | .list [.list rs] =>
    match rs.mapM RoundChangeRequest.ofItem with
    | some reqs => some { requests := some reqs }
    | none => none
  | _ => none

/-- Canonical form of a message: nil slices become present empty slices,
exactly what decoding an encoded message yields. -/
def canonicalizeMessage (m : Message) : Message :=
  { code := m.code, address := m.address, msg := some (m.msg.getD []),
    signature := some (m.signature.getD []) }

/-- Canonical form of a prepared certificate. -/
def canonicalizePreparedCertificateV2 (pc : PreparedCertificateV2) :
    PreparedCertificateV2 :=
  { prepareOrCommitMessages :=
      some ((pc.prepareOrCommitMessages.getD []).map canonicalizeMessage),
    proposalHash := pc.proposalHash }

/-- Canonical form of a round-change request. -/
def canonicalizeRoundChangeRequest (r : RoundChangeRequest) :
    RoundChangeRequest :=
  { address := r.address, view := r.view,
    preparedCertificateV2 :=
      canonicalizePreparedCertificateV2 r.preparedCertificateV2,
    signature := some (r.signature.getD []) }

/-- Canonical form of a round-change certificate. -/
def canonicalizeRoundChangeCertificateV2 (c : RoundChangeCertificateV2) :
    RoundChangeCertificateV2 :=
  { requests :=
      some ((c.requests.getD []).map canonicalizeRoundChangeRequest) }

/-- Embeds `rlp.EncodeToBytes` on a round-change certificate. -/
def encodeRoundChangeCertificateV2 (c : RoundChangeCertificateV2) :
    List Nat :=
  encodeItem c.toItem

/-- Embeds `rlp.DecodeBytes` into a round-change certificate. -/
def decodeRoundChangeCertificateV2 (bs : List Nat) :
    Option RoundChangeCertificateV2 :=
  (rlpDecode bs).bind RoundChangeCertificateV2.ofItem

/-- Embeds the dummyRoundChangeRequest of the round-trip test: view
(round 1, sequence 2), an empty prepared-certificate message list, a dummy
proposal hash, an empty signature. -/
def dummyRoundChangeRequest : RoundChangeRequest :=
  { address := ⟨0, by positivity⟩,
    view := { round := 1, sequence := 2 },
    preparedCertificateV2 :=
      { prepareOrCommitMessages := some [],
        proposalHash := ⟨77, by norm_num⟩ },
    signature := some [] }

/-- Embeds the dummyRoundChangeCertificateV2 of the round-trip test: three
copies of the dummy request. -/
def dummyRoundChangeCertificateV2 : RoundChangeCertificateV2 :=
  { requests := some [dummyRoundChangeRequest, dummyRoundChangeRequest,
      dummyRoundChangeRequest] }

end Wire

namespace IstCore

theorem intCmp_neg_iff (a b : Int) : intCmp a b < 0 ↔ a < b := by
  unfold intCmp; split_ifs <;> simp_all <;> try omega

theorem intCmp_pos_iff (a b : Int) : intCmp a b > 0 ↔ b < a := by
  unfold intCmp; split_ifs <;> simp_all <;> try omega

theorem intCmp_zero_iff (a b : Int) : intCmp a b = 0 ↔ a = b := by
  unfold intCmp; split_ifs <;> simp_all <;> try omega

theorem View.cmp_neg_iff (v y : View) :
    View.cmp v y < 0 ↔
      (v.sequence < y.sequence ∨ (v.sequence = y.sequence ∧ v.round < y.round)) := by
  rcases v with ⟨vr, vs⟩
  rcases y with ⟨yr, ys⟩
  simp only [View.cmp, intCmp]
  split_ifs <;> simp_all <;> try omega

theorem View.cmp_nonpos_iff (v y : View) :
    View.cmp v y ≤ 0 ↔
      (v.sequence < y.sequence ∨ (v.sequence = y.sequence ∧ v.round ≤ y.round)) := by
  rcases v with ⟨vr, vs⟩
  rcases y with ⟨yr, ys⟩
  simp only [View.cmp, intCmp]
  split_ifs <;> simp_all <;> try omega

theorem View.cmp_zero_iff (v y : View) : View.cmp v y = 0 ↔ v = y := by
  unfold View.cmp
  constructor
  · intro h
    split_ifs at h with h1 h2
    · omega
    · omega
    · rcases v with ⟨vr, vs⟩
      rcases y with ⟨yr, ys⟩
      simp only [not_not, intCmp_zero_iff] at h1 h2
      simp_all
  · rintro rfl
    simp [intCmp_zero_iff]

end IstCore

namespace IstCore

/-- Claim C9: for every validator set of size n = 3f+1, the quorum size
ceil(2n/3) equals 2f+1. -/
theorem quorumSize_eq_two_f_plus_one (f : Nat) :
    quorumSize (3 * f + 1) = 2 * f + 1 := by
  unfold quorumSize; omega

theorem handleOldMsg_ne_panic (env : Backend) (c : CoreState) (msg : Message)
    (vs vr : Int) :
    (handleOldMsg env c msg vs vr).1 ≠ .panicCurrentDesiredRoundMismatch := by
  unfold handleOldMsg
  rcases hls : env.lastSubject with _ | ls <;> simp only [hls] <;>
    split_ifs <;> simp

theorem handleOldMsg_snd (env : Backend) (c : CoreState) (msg : Message)
    (vs vr : Int) : (handleOldMsg env c msg vs vr).2 = c.backlog := by
  unfold handleOldMsg
  rcases hls : env.lastSubject with _ | ls <;> simp only [hls] <;>
    split_ifs <;> simp

theorem dispatchByCode_ne_panic (c : CoreState) (msg : Message) :
    (dispatchByCode c msg).1 ≠ .panicCurrentDesiredRoundMismatch := by
  unfold dispatchByCode; split_ifs <;> simp

theorem dispatchByCode_snd (c : CoreState) (msg : Message) :
    (dispatchByCode c msg).2 = c.backlog := by
  unfold dispatchByCode; split_ifs <;> simp

theorem classifyByView_ne_panic_of_inv (env : Backend) (c : CoreState)
    (msg : Message) (vs vr : Int)
    (h : c.current.round ≤ c.current.desiredRound) :
    (classifyByView env c msg vs vr).1 ≠ .panicCurrentDesiredRoundMismatch := by
  unfold classifyByView
  split_ifs with h1 h2 h3 h4 h5
  · exact handleOldMsg_ne_panic env c msg vs vr
  · simp
  · rw [intCmp_pos_iff] at h3; omega
  · simp
  · simp
  · exact dispatchByCode_ne_panic c msg

/-- Claim C1: within a sequence the actual round must never exceed the
desired round; whenever that invariant holds, handleMsg never reaches the
panic, and whenever a message passes the decode, authorization, view and
old/future-sequence checks while the invariant is violated, handleMsg
aborts by panicking instead of returning a recoverable error. -/
theorem handleMsg_panics_iff_round_exceeds_desired (env : Backend)
    (c : CoreState) (payload : Option Message) :
    (c.current.round ≤ c.current.desiredRound →
      (handleMsg env c payload).1 ≠ .panicCurrentDesiredRoundMismatch) ∧
    (∀ msg rv vs vr,
      payload = some msg →
      msg.address ∈ c.current.valSet →
      msg.view = some rv → rv.sequence = some vs → rv.round = some vr →
      ¬ View.cmp { round := vr, sequence := vs }
          { round := c.current.desiredRound, sequence := c.current.sequence } < 0 →
      vs ≤ c.current.sequence →
      c.current.desiredRound < c.current.round →
      (handleMsg env c payload).1 = .panicCurrentDesiredRoundMismatch) := by
  constructor
  · intro h
    rcases payload with _ | msg
    · simp [handleMsg]
    · simp only [handleMsg]
      split_ifs with hmem
      · rcases hv : msg.view with _ | rv
        · simp [hv]
        · obtain ⟨sqo, rdo⟩ := rv
          cases sqo with
          | none => simp [hv]
          | some vs =>
            cases rdo with
            | none => simp [hv]
            | some vr =>
              simpa [hv] using classifyByView_ne_panic_of_inv env c msg vs vr h
      · simp
  · intro msg rv vs vr hp hmem hview hs hr hcmp hseq hlt
    subst hp
    have h1 : ¬ intCmp vs c.current.sequence > 0 := by
      rw [intCmp_pos_iff]; omega
    have h2 : intCmp c.current.round c.current.desiredRound > 0 := by
      rw [intCmp_pos_iff]; omega
    simp [handleMsg, classifyByView, hview, hs, hr, hmem, hcmp, h1, h2]

/-- Witness for claim C1 at a concrete engine state: with round 0 and
desired round 1 the invariant holds and no panic occurs; flipping round to
2 with desired round 1 makes a current-sequence PREPARE panic. -/
theorem handleMsg_panics_iff_round_exceeds_desired_witness :
    (handleMsg
        { parentBlockValidators := fun _ => [], authorForBlock := fun _ => 0,
          hasBlock := fun _ _ => false, lastSubject := none,
          selectProposer := fun _ _ _ => 0 }
        { current := { sequence := 5, round := 2, desiredRound := 1,
                       state := .statePreprepared, valSet := [7] },
          backlog := [], address := 9 }
        (some { code := 1, address := 7,
                view := some { sequence := some 5, round := some 1 },
                proposal := { number := 0, hash := 0 } })).1 =
      .panicCurrentDesiredRoundMismatch := by
  apply (handleMsg_panics_iff_round_exceeds_desired _ _ _).2
    _ _ 5 1 rfl (by decide) rfl rfl rfl (by decide) (by decide) (by decide)

theorem handleOldMsg_ne_future (env : Backend) (c : CoreState) (msg : Message)
    (vs vr : Int) :
    (handleOldMsg env c msg vs vr).1 ≠ .errFutureMessage := by
  unfold handleOldMsg
  rcases hls : env.lastSubject with _ | ls <;> simp only [hls] <;>
    split_ifs <;> simp

theorem dispatchByCode_ne_future (c : CoreState) (msg : Message) :
    (dispatchByCode c msg).1 ≠ .errFutureMessage := by
  unfold dispatchByCode; split_ifs <;> simp

/-- Claim C6: a decoded message from a sender outside the current validator
set is rejected with the unauthorized-address error, and an authorized
message with a nil view or nil view fields is rejected with the
invalid-message error; in both cases the backlog (the only state handleMsg
mutates) is left unchanged. -/
theorem handleMsg_rejects_unauthorized_and_invalid (env : Backend)
    (c : CoreState) (payload : Option Message) :
    (∀ msg, payload = some msg → msg.address ∉ c.current.valSet →
      handleMsg env c payload = (.errUnauthorizedAddress, c.backlog)) ∧
    (∀ msg, payload = some msg → msg.address ∈ c.current.valSet →
      (msg.view = none ∨
        (∃ rv, msg.view = some rv ∧ (rv.sequence = none ∨ rv.round = none))) →
      handleMsg env c payload = (.errInvalidMessage, c.backlog)) := by
  constructor
  · intro msg hp hmem
    subst hp
    simp [handleMsg, hmem]
  · intro msg hp hmem hbad
    subst hp
    rcases hbad with hnone | ⟨rv, hv, hbad⟩
    · simp [handleMsg, hmem, hnone]
    · obtain ⟨sqo, rdo⟩ := rv
      rcases hbad with hb | hb <;> cases sqo <;> cases rdo <;>
        simp_all [handleMsg, hmem, hv]

/-- Witness for claim C6: a message from unknown address 9 against the
validator set containing only 7 is rejected as unauthorized with the
backlog untouched. -/
theorem handleMsg_rejects_unauthorized_and_invalid_witness :
    handleMsg
        { parentBlockValidators := fun _ => [], authorForBlock := fun _ => 0,
          hasBlock := fun _ _ => false, lastSubject := none,
          selectProposer := fun _ _ _ => 0 }
        { current := { sequence := 1, round := 0, desiredRound := 0,
                       state := .stateAcceptRequest, valSet := [7] },
          backlog := [], address := 7 }
        (some { code := 1, address := 9,
                view := some { sequence := some 1, round := some 0 },
                proposal := { number := 0, hash := 0 } }) =
      (.errUnauthorizedAddress, []) :=
  (handleMsg_rejects_unauthorized_and_invalid _ _ _).1 _ rfl (by decide)

/-- Claim C7: handleTimeoutAndMoveToNextRound advances the engine to wait
for round timedOutView.round + 1 exactly when the current sequence equals
the timed-out sequence and the desired round equals the timed-out round;
in every other case it returns nil and leaves the engine unchanged. -/
theorem handleTimeoutAndMoveToNextRound_advances_iff (c : CoreState) (v : View) :
    (handleTimeoutAndMoveToNextRound c v = .waitForDesiredRound (v.round + 1) ↔
      c.current.sequence = v.sequence ∧ c.current.desiredRound = v.round) ∧
    (¬ (c.current.sequence = v.sequence ∧ c.current.desiredRound = v.round) →
      handleTimeoutAndMoveToNextRound c v = .unchanged) := by
  unfold handleTimeoutAndMoveToNextRound
  constructor
  · split_ifs with h
    · simp only [not_or, not_not, intCmp_zero_iff] at h
      constructor
      · intro hc; cases hc
      · intro hc
        rcases h with h | h <;> simp_all [intCmp_zero_iff]
    · push_neg at h
      simp only [not_not, intCmp_zero_iff] at h
      simp [h.1, h.2]
  · intro h
    split_ifs with h2
    · rfl
    · push_neg at h2
      simp only [not_not, intCmp_zero_iff] at h2
      exact absurd ⟨h2.1, h2.2⟩ h

/-- Claim C3 (amended): a valid message with a strictly future sequence is
reported as the future-message control signal; unless it comes from the
engine itself it is appended to the Backlog, and the buffered message is in
the replayable set as soon as the engine view advances at least to the
message view. -/
theorem handleMsg_futureSequence_buffers_unless_self (env : Backend)
    (c : CoreState) (msg : Message) (rv : RawView) (vs vr : Int)
    (hmem : msg.address ∈ c.current.valSet)
    (hview : msg.view = some rv) (hs : rv.sequence = some vs)
    (hr : rv.round = some vr)
    (hfut : c.current.sequence < vs) :
    (handleMsg env c (some msg)).1 = .errFutureMessage ∧
    (msg.address = c.address → (handleMsg env c (some msg)).2 = c.backlog) ∧
    (msg.address ≠ c.address →
      (handleMsg env c (some msg)).2 = c.backlog ++ [msg] ∧
      ∀ r' : Int, vr ≤ r' →
        msg ∈ backlogReplayable { round := r', sequence := vs }
            (handleMsg env c (some msg)).2) := by
  have hnotold : ¬ View.cmp { round := vr, sequence := vs }
      { round := c.current.desiredRound, sequence := c.current.sequence } < 0 := by
    rw [View.cmp_neg_iff]; dsimp only; omega
  have hfut2 : intCmp vs c.current.sequence > 0 := by
    rw [intCmp_pos_iff]; omega
  have hred : handleMsg env c (some msg) =
      (.errFutureMessage, storeUnlessSelf c msg) := by
    simp [handleMsg, hview, hs, hr, hmem, classifyByView, hnotold, hfut2]
  refine ⟨by rw [hred], ?_, ?_⟩
  · intro hself
    rw [hred]
    simp [storeUnlessSelf, hself]
  · intro hother
    have hst : (handleMsg env c (some msg)).2 = c.backlog ++ [msg] := by
      rw [hred]; simp [storeUnlessSelf, hother]
    refine ⟨hst, ?_⟩
    intro r' hr'
    rw [hst]
    refine List.mem_filter.mpr ⟨by simp, ?_⟩
    simp only [msgViewTot, hview, hs, hr]
    rw [decide_eq_true_eq, View.cmp_nonpos_iff]
    dsimp only
    omega

/-- Counterexample to claim C3 as stated: a valid message with a strictly
future sequence whose sender is the engine itself receives the
future-message signal but is not stored in the Backlog, which stays
empty. -/
theorem handleMsg_futureSequence_self_not_buffered :
    handleMsg
        { parentBlockValidators := fun _ => [], authorForBlock := fun _ => 0,
          hasBlock := fun _ _ => false, lastSubject := none,
          selectProposer := fun _ _ _ => 0 }
        { current := { sequence := 1, round := 0, desiredRound := 0,
                       state := .stateAcceptRequest, valSet := [7] },
          backlog := [], address := 7 }
        (some { code := 2, address := 7,
                view := some { sequence := some 2, round := some 0 },
                proposal := { number := 0, hash := 0 } }) =
      (.errFutureMessage, []) := by decide

/-- Witness for claim C3: a future-sequence COMMIT from validator 8 is
buffered and reported as a future message. -/
theorem handleMsg_futureSequence_buffers_unless_self_witness :
    (handleMsg
        { parentBlockValidators := fun _ => [], authorForBlock := fun _ => 0,
          hasBlock := fun _ _ => false, lastSubject := none,
          selectProposer := fun _ _ _ => 0 }
        { current := { sequence := 1, round := 0, desiredRound := 0,
                       state := .stateAcceptRequest, valSet := [7, 8] },
          backlog := [], address := 7 }
        (some { code := 2, address := 8,
                view := some { sequence := some 2, round := some 0 },
                proposal := { number := 0, hash := 0 } })).1 =
      .errFutureMessage :=
  (handleMsg_futureSequence_buffers_unless_self _ _ _ _ 2 0
    (by decide) rfl rfl rfl (by decide)).1

/-- Claim C4 (amended): a current-sequence message with a round strictly
greater than the desired round receives the future-message signal, being
appended to the Backlog exactly when it is not from the engine itself,
unless it is a ROUND-CHANGE message, which is dispatched to its handler
regardless of its higher round. -/
theorem handleMsg_higherRound_buffers_unless_self (env : Backend)
    (c : CoreState) (msg : Message) (rv : RawView) (vs vr : Int)
    (hmem : msg.address ∈ c.current.valSet)
    (hview : msg.view = some rv) (hs : rv.sequence = some vs)
    (hr : rv.round = some vr)
    (hseq : vs = c.current.sequence)
    (hrnd : c.current.desiredRound < vr)
    (hinv : c.current.round ≤ c.current.desiredRound) :
    (msg.code ≠ MsgRoundChange →
      handleMsg env c (some msg) = (.errFutureMessage, storeUnlessSelf c msg)) ∧
    (msg.code = MsgRoundChange →
      handleMsg env c (some msg) = (.toHandleRoundChange, c.backlog)) := by
  have hnotold : ¬ View.cmp { round := vr, sequence := vs }
      { round := c.current.desiredRound, sequence := c.current.sequence } < 0 := by
    rw [View.cmp_neg_iff]; dsimp only; omega
  have hfut2 : ¬ intCmp vs c.current.sequence > 0 := by
    rw [intCmp_pos_iff]; omega
  have hpanic : ¬ intCmp c.current.round c.current.desiredRound > 0 := by
    rw [intCmp_pos_iff]; omega
  have hrnd2 : intCmp vr c.current.desiredRound > 0 := by
    rw [intCmp_pos_iff]; omega
  constructor
  · intro hcode
    by_cases hstate : (c.current.state = .stateWaitingForNewRound ∨
          c.current.state = .stateAcceptRequest) ∧
        (msg.code = MsgCommit ∨ msg.code = MsgPrepare) <;>
      simp [handleMsg, hview, hs, hr, hmem, classifyByView, hnotold, hfut2,
        hpanic, hstate, hrnd2, hcode]
  · intro hcode
    have hstate : ¬ ((c.current.state = .stateWaitingForNewRound ∨
          c.current.state = .stateAcceptRequest) ∧
        (msg.code = MsgCommit ∨ msg.code = MsgPrepare)) := by
      rw [hcode]
      simp [MsgRoundChange, MsgCommit, MsgPrepare]
    simp [handleMsg, hview, hs, hr, hmem, classifyByView, hnotold, hfut2,
      hpanic, hstate, hcode, dispatchByCode,
      MsgRoundChange, MsgPreprepare, MsgPrepare, MsgCommit]

/-- Counterexample to claim C4 as stated: a current-sequence PRE-PREPARE
with a round above the desired round, sent by the engine itself, receives
the future-message signal but is not buffered: the Backlog stays empty. -/
theorem handleMsg_higherRound_self_not_buffered :
    handleMsg
        { parentBlockValidators := fun _ => [], authorForBlock := fun _ => 0,
          hasBlock := fun _ _ => false, lastSubject := none,
          selectProposer := fun _ _ _ => 0 }
        { current := { sequence := 1, round := 0, desiredRound := 0,
                       state := .statePreprepared, valSet := [7] },
          backlog := [], address := 7 }
        (some { code := 0, address := 7,
                view := some { sequence := some 1, round := some 5 },
                proposal := { number := 0, hash := 0 } }) =
      (.errFutureMessage, []) := by decide

/-- Witness for claim C4: a higher-round ROUND-CHANGE is dispatched to the
round-change handler. -/
theorem handleMsg_higherRound_buffers_unless_self_witness :
    handleMsg
        { parentBlockValidators := fun _ => [], authorForBlock := fun _ => 0,
          hasBlock := fun _ _ => false, lastSubject := none,
          selectProposer := fun _ _ _ => 0 }
        { current := { sequence := 1, round := 0, desiredRound := 0,
                       state := .statePreprepared, valSet := [7, 8] },
          backlog := [], address := 7 }
        (some { code := 3, address := 8,
                view := some { sequence := some 1, round := some 5 },
                proposal := { number := 0, hash := 0 } }) =
      (.toHandleRoundChange, []) :=
  (handleMsg_higherRound_buffers_unless_self _ _ _ _ 1 5
    (by decide) rfl rfl rfl rfl (by decide) (by decide)).2 rfl

/-- Claim C5 (amended): a current-sequence COMMIT or PREPARE received while
the engine is in AcceptRequest or WaitingForNewRound receives the
future-message signal and is appended to the Backlog exactly when it is not
from the engine itself. -/
theorem handleMsg_earlyVote_buffers_unless_self (env : Backend)
    (c : CoreState) (msg : Message) (rv : RawView) (vs vr : Int)
    (hmem : msg.address ∈ c.current.valSet)
    (hview : msg.view = some rv) (hs : rv.sequence = some vs)
    (hr : rv.round = some vr)
    (hseq : vs = c.current.sequence)
    (hrnd : c.current.desiredRound ≤ vr)
    (hinv : c.current.round ≤ c.current.desiredRound)
    (hstate : c.current.state = .stateWaitingForNewRound ∨
      c.current.state = .stateAcceptRequest)
    (hcode : msg.code = MsgCommit ∨ msg.code = MsgPrepare) :
    handleMsg env c (some msg) = (.errFutureMessage, storeUnlessSelf c msg) := by
  have hnotold : ¬ View.cmp { round := vr, sequence := vs }
      { round := c.current.desiredRound, sequence := c.current.sequence } < 0 := by
    rw [View.cmp_neg_iff]; dsimp only; omega
  have hfut2 : ¬ intCmp vs c.current.sequence > 0 := by
    rw [intCmp_pos_iff]; omega
  have hpanic : ¬ intCmp c.current.round c.current.desiredRound > 0 := by
    rw [intCmp_pos_iff]; omega
  simp [handleMsg, hview, hs, hr, hmem, classifyByView, hnotold, hfut2,
    hpanic, hstate, hcode]

/-- Counterexample to claim C5 as stated: a current-sequence COMMIT sent by
the engine itself while it is in AcceptRequest receives the future-message
signal but is not buffered: the Backlog stays empty. -/
theorem handleMsg_earlyVote_self_not_buffered :
    handleMsg
        { parentBlockValidators := fun _ => [], authorForBlock := fun _ => 0,
          hasBlock := fun _ _ => false, lastSubject := none,
          selectProposer := fun _ _ _ => 0 }
        { current := { sequence := 1, round := 0, desiredRound := 0,
                       state := .stateAcceptRequest, valSet := [7] },
          backlog := [], address := 7 }
        (some { code := 2, address := 7,
                view := some { sequence := some 1, round := some 0 },
                proposal := { number := 0, hash := 0 } }) =
      (.errFutureMessage, []) := by decide

/-- Witness for claim C5: a current-sequence PREPARE from validator 8
received in AcceptRequest is buffered and reported as future. -/
theorem handleMsg_earlyVote_buffers_unless_self_witness :
    handleMsg
        { parentBlockValidators := fun _ => [], authorForBlock := fun _ => 0,
          hasBlock := fun _ _ => false, lastSubject := none,
          selectProposer := fun _ _ _ => 0 }
        { current := { sequence := 1, round := 0, desiredRound := 0,
                       state := .stateAcceptRequest, valSet := [7, 8] },
          backlog := [], address := 7 }
        (some { code := 1, address := 8,
                view := some { sequence := some 1, round := some 0 },
                proposal := { number := 0, hash := 0 } }) =
      (.errFutureMessage,
        [{ code := 1, address := 8,
           view := some { sequence := some 1, round := some 0 },
           proposal := { number := 0, hash := 0 } }]) := by
  rw [handleMsg_earlyVote_buffers_unless_self _ _ _ _ 1 0
    (by decide) rfl rfl rfl rfl (by decide) (by decide) (by decide) (by decide)]
  decide

/-- Claim C2 (amended): a decoded, authorized message with a view strictly
older than the (desiredRound, sequence) view returns the old-message error
and leaves the Backlog untouched, with these exceptions: a late
PRE-PREPARE from the correct proposer for a block the backend already has
returns nil; a COMMIT whose subject view equals the last finalized subject
view at a non-genesis sequence is handed to
handleCheckedCommitForPreviousSequence; a COMMIT for which the backend
cannot provide the last finalized subject propagates that backend
error. -/
theorem handleMsg_old_characterization (env : Backend) (c : CoreState)
    (msg : Message) (rv : RawView) (vs vr : Int)
    (hmem : msg.address ∈ c.current.valSet)
    (hview : msg.view = some rv) (hs : rv.sequence = some vs)
    (hr : rv.round = some vr)
    (hold : View.cmp { round := vr, sequence := vs }
      { round := c.current.desiredRound, sequence := c.current.sequence } < 0) :
    (handleMsg env c (some msg)).2 = c.backlog ∧
    (msg.code = MsgPreprepare →
      (env.selectProposer (env.parentBlockValidators msg.proposal)
            (env.authorForBlock
              ((toUint64 msg.proposal.number + (2 ^ 64 - 1)) % 2 ^ 64))
            (toUint64 vr) = msg.address ∧
          env.hasBlock msg.proposal.hash msg.proposal.number →
        (handleMsg env c (some msg)).1 = .nilOldPreprepareSuppressed) ∧
      (¬ (env.selectProposer (env.parentBlockValidators msg.proposal)
            (env.authorForBlock
              ((toUint64 msg.proposal.number + (2 ^ 64 - 1)) % 2 ^ 64))
            (toUint64 vr) = msg.address ∧
          env.hasBlock msg.proposal.hash msg.proposal.number) →
        (handleMsg env c (some msg)).1 = .errOldMessage)) ∧
    (msg.code = MsgCommit →
      (env.lastSubject = none →
        (handleMsg env c (some msg)).1 = .lastSubjectErr) ∧
      (∀ ls, env.lastSubject = some ls →
        (View.cmp { round := vr, sequence := vs } ls.view = 0 →
          ls.view.sequence ≠ 0 →
          (handleMsg env c (some msg)).1 =
            .toHandleCheckedCommitForPreviousSequence) ∧
        ((View.cmp { round := vr, sequence := vs } ls.view ≠ 0 ∨
            ls.view.sequence = 0) →
          (handleMsg env c (some msg)).1 = .errOldMessage))) ∧
    (msg.code ≠ MsgPreprepare → msg.code ≠ MsgCommit →
      (handleMsg env c (some msg)).1 = .errOldMessage) := by
  have hred : handleMsg env c (some msg) = handleOldMsg env c msg vs vr := by
    simp [handleMsg, hview, hs, hr, hmem, classifyByView, hold]
  rw [hred]
  refine ⟨handleOldMsg_snd env c msg vs vr, ?_, ?_, ?_⟩
  · intro hcode
    constructor
    · intro hprop
      unfold handleOldMsg
      rw [if_pos hcode, if_pos hprop]
    · intro hnprop
      unfold handleOldMsg
      rw [if_pos hcode, if_neg hnprop]
  · intro hcode
    have hcode1 : ¬ msg.code = MsgPreprepare := by
      rw [hcode]; decide
    constructor
    · intro hls
      unfold handleOldMsg
      rw [if_neg hcode1, if_pos hcode, hls]
    · intro ls hls
      constructor
      · intro hcmp hseq0
        have hne : ¬ intCmp ls.view.sequence 0 = 0 := by
          rw [intCmp_zero_iff]; exact hseq0
        unfold handleOldMsg
        rw [if_neg hcode1, if_pos hcode, hls]
        dsimp only
        rw [if_neg (by simp [hcmp]), if_neg hne]
      · intro hbad
        unfold handleOldMsg
        rw [if_neg hcode1, if_pos hcode, hls]
        dsimp only
        by_cases hcmp : View.cmp { round := vr, sequence := vs } ls.view ≠ 0
        · rw [if_pos hcmp]
        · have h0 : intCmp ls.view.sequence 0 = 0 := by
            rw [intCmp_zero_iff]
            rcases hbad with hb | hb
            · exact absurd hb hcmp
            · exact hb
          rw [if_neg hcmp, if_pos h0]
  · intro hc1 hc2
    unfold handleOldMsg
    rw [if_neg hc1, if_neg hc2]

/-- Counterexample to claim C2 as stated: an old COMMIT whose subject view
exactly equals the last finalized subject view is nevertheless dropped as
an old message, not handed to the previous-sequence commit handler, when
that last subject sits at the genesis sequence 0. -/
theorem handleMsg_old_commit_genesis_not_harvested :
    (handleMsg
        { parentBlockValidators := fun _ => [], authorForBlock := fun _ => 0,
          hasBlock := fun _ _ => false,
          lastSubject := some { view := { round := 0, sequence := 0 },
                                digest := 5 },
          selectProposer := fun _ _ _ => 0 }
        { current := { sequence := 1, round := 0, desiredRound := 0,
                       state := .stateAcceptRequest, valSet := [7] },
          backlog := [], address := 9 }
        (some { code := 2, address := 7,
                view := some { sequence := some 0, round := some 0 },
                proposal := { number := 0, hash := 0 } })).1 =
        .errOldMessage ∧
    (handleMsg
        { parentBlockValidators := fun _ => [], authorForBlock := fun _ => 0,
          hasBlock := fun _ _ => false,
          lastSubject := some { view := { round := 0, sequence := 0 },
                                digest := 5 },
          selectProposer := fun _ _ _ => 0 }
        { current := { sequence := 1, round := 0, desiredRound := 0,
                       state := .stateAcceptRequest, valSet := [7] },
          backlog := [], address := 9 }
        (some { code := 2, address := 7,
                view := some { sequence := some 0, round := some 0 },
                proposal := { number := 0, hash := 0 } })).1 ≠
        .toHandleCheckedCommitForPreviousSequence := by
  constructor <;> decide

/-- Witness for claim C2: an old COMMIT matching the last finalized subject
view at the non-genesis sequence 1 is handed to the previous-sequence
commit handler. -/
theorem handleMsg_old_characterization_witness :
    (handleMsg
        { parentBlockValidators := fun _ => [], authorForBlock := fun _ => 0,
          hasBlock := fun _ _ => false,
          lastSubject := some { view := { round := 0, sequence := 1 },
                                digest := 5 },
          selectProposer := fun _ _ _ => 0 }
        { current := { sequence := 2, round := 0, desiredRound := 0,
                       state := .stateAcceptRequest, valSet := [7] },
          backlog := [], address := 9 }
        (some { code := 2, address := 7,
                view := some { sequence := some 1, round := some 0 },
                proposal := { number := 0, hash := 0 } })).1 =
      .toHandleCheckedCommitForPreviousSequence :=
  ((((handleMsg_old_characterization _ _ _ _ 1 0 (by decide) rfl rfl rfl
      (by decide)).2.2.1 rfl).2 _ rfl).1 (by decide) (by decide))

theorem classifyByView_future_store (env : Backend) (c : CoreState)
    (msg : Message) (vs vr : Int) :
    ((classifyByView env c msg vs vr).1 = .errFutureMessage →
      (classifyByView env c msg vs vr).2 = storeUnlessSelf c msg) ∧
    ((classifyByView env c msg vs vr).1 ≠ .errFutureMessage →
      (classifyByView env c msg vs vr).2 = c.backlog) := by
  unfold classifyByView
  split_ifs with h1 h2 h3 h4 h5
  · exact ⟨fun h => absurd h (handleOldMsg_ne_future env c msg vs vr),
      fun _ => handleOldMsg_snd env c msg vs vr⟩
  · exact ⟨fun _ => rfl, fun h => absurd rfl h⟩
  · exact ⟨by simp, fun _ => rfl⟩
  · exact ⟨fun _ => rfl, fun h => absurd rfl h⟩
  · exact ⟨fun _ => rfl, fun h => absurd rfl h⟩
  · exact ⟨fun h => absurd h (dispatchByCode_ne_future c msg),
      fun _ => dispatchByCode_snd c msg⟩

/-- Claim C10: whenever handleMsg classifies a message as future, the
Backlog is appended to exactly when the sender is not the engine itself (a
self message still yields the future-message signal with the Backlog left
untouched), and no outcome other than the future-message signal ever
mutates the Backlog. -/
theorem handleMsg_backlog_only_for_others (env : Backend) (c : CoreState)
    (payload : Option Message) :
    (∀ msg, payload = some msg →
      (handleMsg env c payload).1 = .errFutureMessage →
      (msg.address = c.address → (handleMsg env c payload).2 = c.backlog) ∧
      (msg.address ≠ c.address →
        (handleMsg env c payload).2 = c.backlog ++ [msg])) ∧
    ((handleMsg env c payload).1 ≠ .errFutureMessage →
      (handleMsg env c payload).2 = c.backlog) := by
  constructor
  · intro msg hp hfut
    subst hp
    by_cases hmem : msg.address ∈ c.current.valSet
    · rcases hv : msg.view with _ | rv
      · simp [handleMsg, hmem, hv] at hfut
      · obtain ⟨sqo, rdo⟩ := rv
        cases sqo with
        | none => simp [handleMsg, hmem, hv] at hfut
        | some vs =>
          cases rdo with
          | none => simp [handleMsg, hmem, hv] at hfut
          | some vr =>
            have hred : handleMsg env c (some msg) =
                classifyByView env c msg vs vr := by
              simp [handleMsg, hmem, hv]
            rw [hred] at hfut ⊢
            have h2 := (classifyByView_future_store env c msg vs vr).1 hfut
            constructor
            · intro hself
              rw [h2]; simp [storeUnlessSelf, hself]
            · intro hother
              rw [h2]; simp [storeUnlessSelf, hother]
    · simp [handleMsg, hmem] at hfut
  · intro hnf
    rcases payload with _ | msg
    · simp [handleMsg]
    · by_cases hmem : msg.address ∈ c.current.valSet
      · rcases hv : msg.view with _ | rv
        · simp [handleMsg, hmem, hv]
        · obtain ⟨sqo, rdo⟩ := rv
          cases sqo with
          | none => simp [handleMsg, hmem, hv]
          | some vs =>
            cases rdo with
            | none => simp [handleMsg, hmem, hv]
            | some vr =>
              have hred : handleMsg env c (some msg) =
                  classifyByView env c msg vs vr := by
                simp [handleMsg, hmem, hv]
              rw [hred] at hnf ⊢
              exact (classifyByView_future_store env c msg vs vr).2 hnf
      · simp [handleMsg, hmem]

/-- Witness for claim C10: a future-sequence message from validator 8 is
appended to the empty Backlog, while the same classification for a self
message leaves it untouched. -/
theorem handleMsg_backlog_only_for_others_witness :
    (handleMsg
        { parentBlockValidators := fun _ => [], authorForBlock := fun _ => 0,
          hasBlock := fun _ _ => false, lastSubject := none,
          selectProposer := fun _ _ _ => 0 }
        { current := { sequence := 1, round := 0, desiredRound := 0,
                       state := .stateAcceptRequest, valSet := [7, 8] },
          backlog := [], address := 7 }
        (some { code := 3, address := 8,
                view := some { sequence := some 4, round := some 0 },
                proposal := { number := 0, hash := 0 } })).2 =
      [] ++ [{ code := 3, address := 8,
               view := some { sequence := some 4, round := some 0 },
               proposal := { number := 0, hash := 0 } }] :=
  ((handleMsg_backlog_only_for_others _ _ _).1 _ rfl (by decide)).2 (by decide)

/-- Witness for claim C7 at a concrete state: sequence 5, desired round 2,
timed out at view (round 2, sequence 5). -/
theorem handleTimeoutAndMoveToNextRound_advances_iff_witness :
    handleTimeoutAndMoveToNextRound
        { current := { sequence := 5, round := 1, desiredRound := 2,
                       state := .stateWaitingForNewRound, valSet := [1, 2, 3, 4] },
          backlog := [], address := 1 }
        { round := 2, sequence := 5 } = .waitForDesiredRound 3 :=
  ((handleTimeoutAndMoveToNextRound_advances_iff _ _).1).mpr (by decide)

end IstCore

namespace Wire

theorem beVal_append (bs : List Nat) (b : Nat) :
    beVal (bs ++ [b]) = 256 * beVal bs + b := by
  simp [beVal, List.foldl_append]
  ring

theorem beVal_natBytes (n : Nat) : beVal (natBytes n) = n := by
  induction n using Nat.strong_induction_on with
  | _ n ih =>
    rw [natBytes]
    split_ifs with h
    · simp [beVal, h]
    · rw [beVal_append,
        ih (n / 256) (Nat.div_lt_self (Nat.pos_of_ne_zero h) (by omega))]
      omega

theorem natBytes_length_le (k : Nat) :
    ∀ n, n < 256 ^ k → (natBytes n).length ≤ k := by
  induction k with
  | zero =>
    intro n h
    have h0 : n = 0 := by simpa using h
    rw [natBytes]
    simp [h0]
  | succ k ih =>
    intro n h
    rw [natBytes]
    split_ifs with h0
    · simp
    · have hd : n / 256 < 256 ^ k := by
        rw [Nat.div_lt_iff_lt_mul (by omega)]
        rw [pow_succ] at h
        exact h
      have := ih (n / 256) hd
      simp only [List.length_append, List.length_cons, List.length_nil]
      omega

theorem natBytes_ne_nil (n : Nat) (h : n ≠ 0) : natBytes n ≠ [] := by
  rw [natBytes]
  simp [h]

theorem natBytesFix_length (k : Nat) : ∀ n, (natBytesFix k n).length = k := by
  induction k with
  | zero => intro n; rfl
  | succ k ih => intro n; simp [natBytesFix, ih]

theorem beVal_natBytesFix (k : Nat) :
    ∀ n, beVal (natBytesFix k n) = n % 256 ^ k := by
  induction k with
  | zero => intro n; simp [natBytesFix, beVal, Nat.mod_one]
  | succ k ih =>
    intro n
    show beVal (natBytesFix k (n / 256) ++ [n % 256]) = _
    rw [beVal_append, ih]
    rw [pow_succ', Nat.mod_mul]
    ring

theorem encLen_length_pos (o l : Nat) : 1 ≤ (encLen o l).length := by
  unfold encLen
  split_ifs <;> simp

theorem encodeBytes_length_pos (bs : List Nat) :
    1 ≤ (encodeBytes bs).length := by
  match bs with
  | [] =>
    simp [encodeBytes, encLen]
  | [b] =>
    simp only [encodeBytes]
    split_ifs <;> simp
  | b1 :: b2 :: t =>
    simp only [encodeBytes, List.length_append]
    have := encLen_length_pos 128 (b1 :: b2 :: t).length
    omega

theorem encodeItem_length_pos (it : Item) : 1 ≤ (encodeItem it).length := by
  cases it with
  | str bs =>
    simpa [encodeItem] using encodeBytes_length_pos bs
  | list its =>
    simp only [encodeItem, List.length_append]
    have := encLen_length_pos 192 (encodeItems its).length
    omega

mutual

theorem itemCost_le_enc (it : Item) : itemCost it + 2 ≤ 3 * (encodeItem it).length := by
  cases it with
  | str bs =>
    have := encodeBytes_length_pos bs
    simp only [itemCost, encodeItem]
    omega
  | list its =>
    have h1 := itemsCost_le_enc its
    have h2 := encLen_length_pos 192 (encodeItems its).length
    simp only [itemCost, encodeItem, List.length_append]
    omega

theorem itemsCost_le_enc (its : List Item) :
    itemsCost its ≤ 3 * (encodeItems its).length := by
  cases its with
  | nil => simp [itemsCost, encodeItems]
  | cons it its =>
    have h1 := itemCost_le_enc it
    have h2 := itemsCost_le_enc its
    simp only [itemsCost, encodeItems, List.length_append]
    omega

end

theorem decodeItemF_str_short (f len : Nat) (bs rest : List Nat)
    (hlen : bs.length = len) (h56 : len < 56) :
    decodeItemF (f + 1) ((128 + len) :: (bs ++ rest)) = some (.str bs, rest) := by
  have e1 : ¬ (128 + len < 128) := by omega
  have e2 : 128 + len < 184 := by omega
  have e3 : 128 + len - 128 = len := by omega
  have e4 : ¬ ((bs ++ rest).length < len) := by
    simp only [List.length_append]
    omega
  simp only [decodeItemF, if_neg e1, if_pos e2, e3, if_neg e4,
    List.take_left' hlen, List.drop_left' hlen]

theorem decodeItemF_str_long (f : Nat) (bs rest : List Nat)
    (h56 : 56 ≤ bs.length) (hb : bs.length < 2 ^ 64) :
    decodeItemF (f + 1)
        ((183 + (natBytes bs.length).length) ::
          (natBytes bs.length ++ (bs ++ rest))) =
      some (.str bs, rest) := by
  have hL1 : 1 ≤ (natBytes bs.length).length := by
    have := List.length_pos.mpr (natBytes_ne_nil bs.length (by omega))
    omega
  have hL8 : (natBytes bs.length).length ≤ 8 := by
    refine natBytes_length_le 8 bs.length ?_
    have h64 : (256 : Nat) ^ 8 = 2 ^ 64 := by norm_num
    rw [h64]
    exact hb
  have e1 : ¬ (183 + (natBytes bs.length).length < 128) := by omega
  have e2 : ¬ (183 + (natBytes bs.length).length < 184) := by omega
  have e3 : 183 + (natBytes bs.length).length < 192 := by omega
  have e4 : 183 + (natBytes bs.length).length - 183 =
      (natBytes bs.length).length := by omega
  have e5 : ¬ ((natBytes bs.length ++ (bs ++ rest)).length <
      (natBytes bs.length).length) := by
    simp only [List.length_append]
    omega
  have e6 : ¬ ((bs ++ rest).length < bs.length) := by
    simp only [List.length_append]
    omega
  simp only [decodeItemF, if_neg e1, if_neg e2, if_pos e3, e4, if_neg e5,
    List.take_left, List.drop_left, beVal_natBytes, if_neg e6]

theorem decodeItemF_list_short (f : Nat) (p rest : List Nat) (its : List Item)
    (h56 : p.length < 56) (hdec : decodeItemsF f p = some its) :
    decodeItemF (f + 1) ((192 + p.length) :: (p ++ rest)) =
      some (.list its, rest) := by
  have e1 : ¬ (192 + p.length < 128) := by omega
  have e2 : ¬ (192 + p.length < 184) := by omega
  have e3 : ¬ (192 + p.length < 192) := by omega
  have e4 : 192 + p.length < 248 := by omega
  have e5 : 192 + p.length - 192 = p.length := by omega
  have e6 : ¬ ((p ++ rest).length < p.length) := by
    simp only [List.length_append]
    omega
  simp only [decodeItemF, if_neg e1, if_neg e2, if_neg e3, if_pos e4, e5,
    if_neg e6, List.take_left, List.drop_left, hdec]

theorem decodeItemF_list_long (f : Nat) (p rest : List Nat) (its : List Item)
    (h56 : 56 ≤ p.length) (hb : p.length < 2 ^ 64)
    (hdec : decodeItemsF f p = some its) :
    decodeItemF (f + 1)
        ((247 + (natBytes p.length).length) ::
          (natBytes p.length ++ (p ++ rest))) =
      some (.list its, rest) := by
  have hL1 : 1 ≤ (natBytes p.length).length := by
    have := List.length_pos.mpr (natBytes_ne_nil p.length (by omega))
    omega
  have hL8 : (natBytes p.length).length ≤ 8 := by
    refine natBytes_length_le 8 p.length ?_
    have h64 : (256 : Nat) ^ 8 = 2 ^ 64 := by norm_num
    rw [h64]
    exact hb
  have e1 : ¬ (247 + (natBytes p.length).length < 128) := by omega
  have e2 : ¬ (247 + (natBytes p.length).length < 184) := by omega
  have e3 : ¬ (247 + (natBytes p.length).length < 192) := by omega
  have e4 : ¬ (247 + (natBytes p.length).length < 248) := by omega
  have e5 : 247 + (natBytes p.length).length - 247 =
      (natBytes p.length).length := by omega
  have e6 : ¬ ((natBytes p.length ++ (p ++ rest)).length <
      (natBytes p.length).length) := by
    simp only [List.length_append]
    omega
  have e7 : ¬ ((p ++ rest).length < p.length) := by
    simp only [List.length_append]
    omega
  simp only [decodeItemF, if_neg e1, if_neg e2, if_neg e3, if_neg e4, e5,
    if_neg e6, List.take_left, List.drop_left, beVal_natBytes, if_neg e7, hdec]

theorem decodeItemsF_cons_eq (f : Nat) (bs : List Nat) (hne : bs ≠ []) :
    decodeItemsF (f + 1) bs =
      match decodeItemF f bs with
      | some (it, rest2) =>
        (match decodeItemsF f rest2 with
          | some its => some (it :: its)
          | none => none)
      | none => none := by
  cases bs with
  | nil => exact absurd rfl hne
  | cons b tl => simp only [decodeItemsF]

mutual

theorem decodeItemF_encodeItem (it : Item) (rest : List Nat) (fuel : Nat)
    (hf : itemCost it ≤ fuel) (hb : boundedItem it = true) :
    decodeItemF fuel (encodeItem it ++ rest) = some (it, rest) := by
  cases fuel with
  | zero =>
    exact absurd hf (by cases it <;> simp [itemCost] <;> omega)
  | succ f =>
    cases it with
    | str bs =>
      match bs with
      | [] =>
        have h := decodeItemF_str_short f 0 [] rest rfl (by omega)
        simpa [encodeItem, encodeBytes, encLen] using h
      | [b] =>
        by_cases hb1 : b < 128
        · have henc : encodeItem (.str [b]) = [b] := by
            simp [encodeItem, encodeBytes, hb1]
          rw [henc]
          simp [decodeItemF, hb1]
        · have henc : encodeItem (.str [b]) = [129, b] := by
            simp [encodeItem, encodeBytes, hb1]
          rw [henc]
          have h := decodeItemF_str_short f 1 [b] rest rfl (by omega)
          simpa using h
      | b1 :: b2 :: bs2 =>
        have hbound : (b1 :: b2 :: bs2).length < 2 ^ 64 := by
          simpa [boundedItem] using hb
        have henc : encodeItem (.str (b1 :: b2 :: bs2)) =
            encLen 128 (b1 :: b2 :: bs2).length ++ (b1 :: b2 :: bs2) := by
          simp [encodeItem, encodeBytes]
        by_cases h56 : (b1 :: b2 :: bs2).length < 56
        · rw [henc]
          unfold encLen
          rw [if_pos h56]
          have h := decodeItemF_str_short f (b1 :: b2 :: bs2).length
            (b1 :: b2 :: bs2) rest rfl h56
          simpa [List.append_assoc] using h
        · rw [henc]
          unfold encLen
          rw [if_neg h56]
          have h := decodeItemF_str_long f (b1 :: b2 :: bs2) rest
            (by omega) hbound
          simpa [List.append_assoc] using h
    | list its =>
      have hsplit : (encodeItems its).length < 2 ^ 64 ∧
          boundedItems its = true := by
        have h := hb
        simp only [boundedItem, Bool.and_eq_true, decide_eq_true_eq] at h
        exact h
      have hcost : itemsCost its ≤ f := by
        simp only [itemCost] at hf
        omega
      have hdec := decodeItemsF_encodeItems its f hcost hsplit.2
      have henc : encodeItem (.list its) =
          encLen 192 (encodeItems its).length ++ encodeItems its := by
        simp [encodeItem]
      by_cases h56 : (encodeItems its).length < 56
      · rw [henc]
        unfold encLen
        rw [if_pos h56]
        have h := decodeItemF_list_short f (encodeItems its) rest its h56 hdec
        simpa [List.append_assoc] using h
      · rw [henc]
        unfold encLen
        rw [if_neg h56]
        have h := decodeItemF_list_long f (encodeItems its) rest its
          (by omega) hsplit.1 hdec
        simpa [List.append_assoc] using h

theorem decodeItemsF_encodeItems (its : List Item) (fuel : Nat)
    (hf : itemsCost its ≤ fuel) (hb : boundedItems its = true) :
    decodeItemsF fuel (encodeItems its) = some its := by
  cases its with
  | nil =>
    simp [encodeItems, decodeItemsF]
  | cons it its =>
    cases fuel with
    | zero =>
      exact absurd hf (by simp [itemsCost])
    | succ f =>
      have hsplit : boundedItem it = true ∧ boundedItems its = true := by
        have h := hb
        simp only [boundedItems, Bool.and_eq_true] at h
        exact h
      have hc : itemCost it ≤ f ∧ itemsCost its ≤ f := by
        simp only [itemsCost] at hf
        omega
      have h1 := decodeItemF_encodeItem it (encodeItems its) f hc.1 hsplit.1
      have h2 := decodeItemsF_encodeItems its f hc.2 hsplit.2
      have he : encodeItems (it :: its) = encodeItem it ++ encodeItems its := by
        simp [encodeItems]
      have hne : encodeItem it ++ encodeItems its ≠ [] := by
        intro hx
        have hlen := encodeItem_length_pos it
        rw [(List.append_eq_nil.mp hx).1] at hlen
        simp at hlen
      rw [he, decodeItemsF_cons_eq f _ hne, h1]
      dsimp only
      rw [h2]

end

theorem rlpDecode_encodeItem (it : Item) (hb : boundedItem it = true) :
    rlpDecode (encodeItem it) = some it := by
  have h := decodeItemF_encodeItem it [] (3 * (encodeItem it).length + 1)
    (by have := itemCost_le_enc it; omega) hb
  rw [List.append_nil] at h
  unfold rlpDecode
  rw [h]

theorem decNat_encNat (n : Nat) : decNat (encNat n) = some n := by
  simp [decNat, encNat, beVal_natBytes]

theorem decAddress_encAddress (a : Fin (2 ^ 160)) :
    decAddress (encAddress a) = some a := by
  have h1 : beVal (natBytesFix 20 a.val) = a.val := by
    rw [beVal_natBytesFix]
    have h2 : (256 : Nat) ^ 20 = 2 ^ 160 := by norm_num
    rw [h2, Nat.mod_eq_of_lt a.isLt]
  simp [decAddress, encAddress, natBytesFix_length, h1]
  exact Fin.ext (Nat.mod_eq_of_lt a.isLt)

theorem decHash_encHash (h : Fin (2 ^ 256)) :
    decHash (encHash h) = some h := by
  have h1 : beVal (natBytesFix 32 h.val) = h.val := by
    rw [beVal_natBytesFix]
    have h2 : (256 : Nat) ^ 32 = 2 ^ 256 := by norm_num
    rw [h2, Nat.mod_eq_of_lt h.isLt]
  simp [decHash, encHash, natBytesFix_length, h1]
  exact Fin.ext (Nat.mod_eq_of_lt h.isLt)

theorem decBytesField_encBytesField (b : Option (List Nat)) :
    decBytesField (encBytesField b) = some (b.getD []) := rfl

theorem mapM_map_eq {α β γ : Type} (f : α → Option β) (g : γ → α)
    (h : γ → β) (hfg : ∀ x, f (g x) = some (h x)) (l : List γ) :
    (l.map g).mapM f = some (l.map h) := by
  induction l with
  | nil => rfl
  | cons a l ih =>
    rw [List.map_cons, List.mapM_cons, hfg a, ih]
    rfl

theorem viewOfItem_toItem (v : View) : View.ofItem v.toItem = some v := by
  simp [View.ofItem, View.toItem, decNat_encNat]

theorem messageOfItem_toItem (m : Message) :
    Message.ofItem m.toItem = some (canonicalizeMessage m) := by
  simp [Message.ofItem, Message.toItem, decNat_encNat, decAddress_encAddress,
    decBytesField_encBytesField, canonicalizeMessage]

theorem preparedCertificateV2OfItem_toItem (pc : PreparedCertificateV2) :
    PreparedCertificateV2.ofItem pc.toItem =
      some (canonicalizePreparedCertificateV2 pc) := by
  have hm := mapM_map_eq Message.ofItem Message.toItem canonicalizeMessage
    messageOfItem_toItem (pc.prepareOrCommitMessages.getD [])
  simp only [PreparedCertificateV2.ofItem, PreparedCertificateV2.toItem]
  rw [hm, decHash_encHash]
  rfl

theorem roundChangeRequestOfItem_toItem (r : RoundChangeRequest) :
    RoundChangeRequest.ofItem r.toItem =
      some (canonicalizeRoundChangeRequest r) := by
  simp [RoundChangeRequest.ofItem, RoundChangeRequest.toItem,
    decAddress_encAddress, viewOfItem_toItem,
    preparedCertificateV2OfItem_toItem, decBytesField_encBytesField,
    canonicalizeRoundChangeRequest]

theorem roundChangeCertificateV2OfItem_toItem (c : RoundChangeCertificateV2) :
    RoundChangeCertificateV2.ofItem c.toItem =
      some (canonicalizeRoundChangeCertificateV2 c) := by
  have hm := mapM_map_eq RoundChangeRequest.ofItem RoundChangeRequest.toItem
    canonicalizeRoundChangeRequest roundChangeRequestOfItem_toItem
    (c.requests.getD [])
  simp only [RoundChangeCertificateV2.ofItem, RoundChangeCertificateV2.toItem]
  rw [hm]
  rfl

/-- Claim C8: encoding a Round-Change Certificate with the deterministic
wire encoding and decoding the bytes back yields an object equal in every
field to the original, with absent (nil) optional fields such as an empty
signature or an empty message set canonicalized to the present empty form
rather than omitted; the bound hypothesis states that every length in the
certificate fits a uint64, as any Go value satisfies. -/
theorem roundChangeCertificateV2_rlp_roundtrip (c : RoundChangeCertificateV2)
    (hb : boundedItem c.toItem = true) :
    decodeRoundChangeCertificateV2 (encodeRoundChangeCertificateV2 c) =
      some (canonicalizeRoundChangeCertificateV2 c) := by
  unfold decodeRoundChangeCertificateV2 encodeRoundChangeCertificateV2
  rw [rlpDecode_encodeItem c.toItem hb]
  simp [roundChangeCertificateV2OfItem_toItem]

/-- Witness for claim C8 at the dummy certificate of the round-trip test:
the encoded then decoded certificate equals its canonical form, which for
this certificate is itself. -/
theorem roundChangeCertificateV2_rlp_roundtrip_witness :
    decodeRoundChangeCertificateV2
        (encodeRoundChangeCertificateV2 dummyRoundChangeCertificateV2) =
      some (canonicalizeRoundChangeCertificateV2
        dummyRoundChangeCertificateV2) :=
  roundChangeCertificateV2_rlp_roundtrip dummyRoundChangeCertificateV2
    (by simp [dummyRoundChangeCertificateV2, dummyRoundChangeRequest,
      boundedItem, boundedItems, RoundChangeCertificateV2.toItem,
      RoundChangeRequest.toItem, PreparedCertificateV2.toItem, View.toItem,
      Message.toItem, encNat, encAddress, encHash, encBytesField,
      encodeItems, encodeItem, encodeBytes, encLen, natBytes, natBytesFix])

end Wire
